import Mathlib

/-!
Verification of the digcname dangling-CNAME scanner.

The Go sources are shallowly embedded here:
* `classify` renders the four return sites of `getCNAMERecord` in `main.go`
  (lines 30-50): NXDOMAIN detection on process failure, query error, the
  "No CNAME record" answer for empty trimmed stdout, and the trimmed CNAME.
* `getCNAMERecord`, `extractWildcardDomain`, `matchesAnyPattern`,
  `checkCNAMERecords` and the filtered report loop come from the full
  pipeline variant (`src/unnamed/part_001`).
Go `strings` helpers (`TrimSpace`, `HasPrefix`, `Contains`) are modelled as
computable functions on the character list of a `String`.  The external
`dig` invocation is modelled as a resolver oracle indexed by the query
counter, so repeated queries for the same hostname may answer differently.
-/

namespace DigCname

/-- Model of Go `strings.HasPrefix`: `leadsWith p l` is true when the
character list `p` is an initial segment of `l`. -/
def leadsWith : List Char → List Char → Bool
  | [], _ => true
  | _ :: _, [] => false
  | p :: ps, c :: cs => p == c && leadsWith ps cs

/-- Helper for Go `strings.Contains`: `containsSub sub l` is true when
`sub` occurs contiguously inside `l`. -/
def containsSub (sub : List Char) : List Char → Bool
  | [] => leadsWith sub []
  | c :: cs => leadsWith sub (c :: cs) || containsSub sub cs

/-- Model of Go `strings.Contains s sub`. -/
def strContains (s sub : String) : Bool :=
  containsSub sub.data s.data

/-- Model of Go `strings.TrimSpace` on the character list: drop whitespace
from both ends. -/
def trimSpaceList (l : List Char) : List Char :=
  ((l.dropWhile Char.isWhitespace).reverse.dropWhile Char.isWhitespace).reverse

/-- Model of Go `strings.TrimSpace`. -/
def trimSpace (s : String) : String :=
  String.mk (trimSpaceList s.data)

/-- Model of Go `strings.HasPrefix` at `String` level. -/
def strStartsWith (s pre : String) : Bool :=
  leadsWith pre.data s.data

/-- Model of Go slicing `s[n:]` (used as `cname[2:]` after a 2-byte ASCII
marker, so byte and character counts agree). -/
def strDrop (s : String) (n : Nat) : String :=
  String.mk (s.data.drop n)

/-- Raw outcome of one `dig +short CNAME` invocation: captured stdout,
captured stderr, and whether `cmd.Run()` reported failure. -/
structure RawResult where
  stdout : String
  stderr : String
  failed : Bool
deriving DecidableEq

/-- The four DNS states distinguished by the classifier; each tag names one
return site of `getCNAMERecord` in `main.go`. -/
inductive DnsOutcome where
  | CnameFound (target : String)
  | NoCname
  | NxDomain
  | QueryError (msg : String)
deriving DecidableEq

/-- Resolution classifier, translated from `getCNAMERecord` in `main.go`
lines 36-49: on process failure, stderr containing the literal
`status: NXDOMAIN` marker means `NxDomain`, any other failure is a
`QueryError`; on success an empty trimmed stdout means `NoCname`, and
otherwise the trimmed stdout is the found CNAME target. -/
def classify (rawStdout rawStderr : String) (processFailed : Bool) : DnsOutcome :=
  if processFailed then
    if strContains rawStderr "status: NXDOMAIN" then DnsOutcome.NxDomain
    else DnsOutcome.QueryError "error executing dig command"
  else
    let cname := trimSpace rawStdout
    if cname = "" then DnsOutcome.NoCname
    else DnsOutcome.CnameFound cname

/-- `getCNAMERecord` from `src/unnamed/part_001` lines 43-58: a failed
process is an error; otherwise empty trimmed stdout yields the
`No CNAME record` sentinel and anything else yields the trimmed CNAME. -/
def getCNAMERecord (subdomain : String) (r : RawResult) : Except String String :=
  if r.failed then Except.error ("error executing dig command for " ++ subdomain)
  else
    let cname := trimSpace r.stdout
    if cname = "" then Except.ok "No CNAME record"
    else Except.ok cname

/-- `extractWildcardDomain` from `src/unnamed/part_001` lines 61-73: the
sentinel maps to the empty string; otherwise trim, then strip one leading
`*.` wildcard marker if present. -/
def extractWildcardDomain (cname : String) : String :=
  if cname = "No CNAME record" then ""
  else
    let c := trimSpace cname
    if strStartsWith c "*." then strDrop c 2
    else c

/-- `matchesAnyPattern` from `src/unnamed/part_001` lines 76-86: an empty
domain never matches; otherwise some pattern must occur as a substring. -/
def matchesAnyPattern (domain : String) (patterns : List String) : Bool :=
  if domain = "" then false
  else patterns.any (fun pattern => strContains domain pattern)

/-- Per-subdomain result record (`Record` in `src/unnamed/part_001`). -/
structure Record where
  CNAME : String
  IsVulnerable : Bool
deriving DecidableEq

/-- Loop body of `checkCNAMERecords` from `src/unnamed/part_001` lines
21-40, with the external `dig` calls supplied by the oracle `resolve`
indexed by the running query counter `k`, and the Go map modelled as a
function updated at the current key. -/
def checkAux (resolve : Nat → String → RawResult) (patterns : List String) :
    List String → Nat → (String → Option Record) →
    Except String (String → Option Record)
  | [], _, results => Except.ok results
  | subdomain :: rest, k, results =>
    match getCNAMERecord subdomain (resolve k subdomain) with
    | Except.error e => Except.error e
    | Except.ok cname =>
      let wildcardDomain := extractWildcardDomain cname
      let isVulnerable := matchesAnyPattern wildcardDomain patterns
      checkAux resolve patterns rest (k + 1)
        (fun x => if x = subdomain then some ⟨cname, isVulnerable⟩ else results x)

/-- `checkCNAMERecords` from `src/unnamed/part_001` lines 21-40: scan the
subdomains in order starting from the empty result map. -/
def checkCNAMERecords (resolve : Nat → String → RawResult)
    (subdomains patterns : List String) :
    Except String (String → Option Record) :=
  checkAux resolve patterns subdomains 0 (fun _ => none)

/-- One line of the filtered report (`src/unnamed/part_001` line 148). -/
def reportLine (subdomain : String) (record : Record) : String :=
  "Subdomain: " ++ subdomain ++ ", CNAME: " ++ record.CNAME ++ ", Vulnerable: Yes"

/-- Filtered report loop from `main` in `src/unnamed/part_001` lines
146-153: iterate the result map over the key enumeration `keys` and emit a
line for each vulnerable record. -/
def writeResults (results : String → Option Record) (keys : List String) :
    List String :=
  keys.filterMap (fun subdomain =>
    match results subdomain with
    | some record => if record.IsVulnerable then some (reportLine subdomain record) else none
    | none => none)

/-- Characterisation of the `strings.HasPrefix` model as an existential. -/
lemma leadsWith_iff (p : List Char) : ∀ l, leadsWith p l = true ↔ ∃ t, p ++ t = l := by
  induction p with
  | nil => intro l; simp [leadsWith]
  | cons a ps ih =>
    intro l
    cases l with
    | nil => simp [leadsWith]
    | cons c cs =>
      simp only [leadsWith, Bool.and_eq_true, beq_iff_eq, ih, List.cons_append,
        List.cons.injEq]
      constructor
      · rintro ⟨rfl, t, rfl⟩
        exact ⟨t, rfl, rfl⟩
      · rintro ⟨t, rfl, rfl⟩
        exact ⟨rfl, t, rfl⟩

/-- Characterisation of the `strings.Contains` helper as an existential
decomposition into a context around the needle. -/
lemma containsSub_iff (sub : List Char) :
    ∀ l, containsSub sub l = true ↔ ∃ pre post, pre ++ (sub ++ post) = l := by
  intro l
  induction l with
  | nil =>
    simp only [containsSub, leadsWith_iff, List.append_eq_nil]
    constructor
    · rintro ⟨t, h1, h2⟩
      exact ⟨[], t, by simp [h1, h2]⟩
    · rintro ⟨pre, post, h1, h2, h3⟩
      exact ⟨post, h2, h3⟩
  | cons c cs ih =>
    simp only [containsSub, Bool.or_eq_true, leadsWith_iff, ih]
    constructor
    · rintro (⟨t, h⟩ | ⟨pre, post, h⟩)
      · exact ⟨[], t, by simpa using h⟩
      · exact ⟨c :: pre, post, by simp [h]⟩
    · rintro ⟨pre, post, h⟩
      cases pre with
      | nil => exact Or.inl ⟨post, by simpa using h⟩
      | cons d pre2 =>
        rw [List.cons_append] at h
        injection h with h1 h2
        exact Or.inr ⟨pre2, post, h2⟩

/-- `String` append acts as list append on the character data. -/
lemma strData_append (a b : String) : (a ++ b).data = a.data ++ b.data := by
  cases a
  cases b
  rfl

/-- `strContains s sub` holds exactly when `sub` occurs as a literal
contiguous substring of `s`. -/
lemma strContains_iff (s sub : String) :
    strContains s sub = true ↔ ∃ pre post : String, pre ++ sub ++ post = s := by
  constructor
  · intro h
    rcases (containsSub_iff sub.data s.data).mp h with ⟨pre, post, hl⟩
    refine ⟨String.mk pre, String.mk post, ?_⟩
    cases s with
    | mk d =>
      cases sub with
      | mk sd =>
        exact congrArg String.mk (by simpa using hl)
  · rintro ⟨pre, post, h⟩
    apply (containsSub_iff sub.data s.data).mpr
    refine ⟨pre.data, post.data, ?_⟩
    have hd := congrArg String.data h
    simpa [strData_append] using hd

/-- C1.  The classifier is total over the four outcome tags, and `NxDomain`
is produced exactly when the process failed and stderr carries the literal
`status: NXDOMAIN` marker. -/
theorem classify_four_outcomes_nxdomain_iff (rawStdout rawStderr : String)
    (processFailed : Bool) :
    ((∃ t, classify rawStdout rawStderr processFailed = DnsOutcome.CnameFound t) ∨
      classify rawStdout rawStderr processFailed = DnsOutcome.NoCname ∨
      classify rawStdout rawStderr processFailed = DnsOutcome.NxDomain ∨
      (∃ e, classify rawStdout rawStderr processFailed = DnsOutcome.QueryError e)) ∧
    (classify rawStdout rawStderr processFailed = DnsOutcome.NxDomain ↔
      (processFailed = true ∧ strContains rawStderr "status: NXDOMAIN" = true)) := by
  cases processFailed with
  | false =>
    by_cases h : trimSpace rawStdout = "" <;> simp [classify, h]
  | true =>
    by_cases h : strContains rawStderr "status: NXDOMAIN" = true
    · simp [classify, h]
    · rw [Bool.not_eq_true] at h
      simp [classify, h]

/-- C3.  When the process did not fail, the classifier returns `NoCname`
exactly for whitespace-only stdout, and otherwise `CnameFound` carrying
exactly the trimmed stdout. -/
theorem classify_success_branches (rawStdout rawStderr : String) :
    (classify rawStdout rawStderr false = DnsOutcome.NoCname ↔
      trimSpace rawStdout = "") ∧
    (∀ t, classify rawStdout rawStderr false = DnsOutcome.CnameFound t ↔
      (trimSpace rawStdout ≠ "" ∧ t = trimSpace rawStdout)) := by
  by_cases h : trimSpace rawStdout = "" <;> simp [classify, h, eq_comm]

/-- C4 counterexample.  The input begins with a space, not with the
wildcard marker, so the claim predicts the trimmed target unchanged; the
code nevertheless strips the marker after trimming. -/
theorem extractWildcardDomain_claim_counterexample :
    strStartsWith " *.cdn.example.com" "*." = false ∧
    trimSpace " *.cdn.example.com" = "*.cdn.example.com" ∧
    extractWildcardDomain " *.cdn.example.com" = "cdn.example.com" ∧
    extractWildcardDomain " *.cdn.example.com" ≠ trimSpace " *.cdn.example.com" := by
  decide

/-- C4 as amended.  The normalizer maps the empty string and the sentinel
to the empty string; otherwise it first trims the target, then strips one
leading wildcard marker from the trimmed target if present and returns the
trimmed target unchanged if not; a bare leading star and trailing root dots
are preserved. -/
theorem extractWildcardDomain_amended_spec (target : String)
    (h : target ≠ "No CNAME record") :
    extractWildcardDomain "" = "" ∧
    extractWildcardDomain "No CNAME record" = "" ∧
    (strStartsWith (trimSpace target) "*." = true →
      extractWildcardDomain target = strDrop (trimSpace target) 2) ∧
    (strStartsWith (trimSpace target) "*." = false →
      extractWildcardDomain target = trimSpace target) ∧
    extractWildcardDomain "*.cdn.vulnerable-host.io" = "cdn.vulnerable-host.io" ∧
    extractWildcardDomain "*cdn.example.com" = "*cdn.example.com" ∧
    extractWildcardDomain "a.b.example.com." = "a.b.example.com." := by
  refine ⟨by decide, by decide, ?_, ?_, by decide, by decide, by decide⟩
  · intro hs
    simp [extractWildcardDomain, h, hs]
  · intro hs
    simp [extractWildcardDomain, h, hs]

/-- Witness for the amended C4 at a concrete wildcard target. -/
theorem extractWildcardDomain_amended_spec_witness :
    extractWildcardDomain "*.cdn.vulnerable-host.io" =
      strDrop (trimSpace "*.cdn.vulnerable-host.io") 2 :=
  (extractWildcardDomain_amended_spec "*.cdn.vulnerable-host.io"
    (by decide)).2.2.1 (by decide)

/-- C5.  The matcher rejects the empty domain, accepts a non-empty domain
exactly when some fingerprint occurs as a literal contiguous substring, and
its boolean verdict is invariant under permutation of the fingerprints. -/
theorem matchesAnyPattern_substring_spec (domain : String)
    (patterns patterns2 : List String) :
    matchesAnyPattern "" patterns = false ∧
    (domain ≠ "" →
      (matchesAnyPattern domain patterns = true ↔
        ∃ p ∈ patterns, ∃ pre post : String, pre ++ p ++ post = domain)) ∧
    (patterns.Perm patterns2 →
      matchesAnyPattern domain patterns = matchesAnyPattern domain patterns2) := by
  refine ⟨by simp [matchesAnyPattern], ?_, ?_⟩
  · intro hd
    simp [matchesAnyPattern, hd, List.any_eq_true, strContains_iff]
  · intro hperm
    by_cases hd : domain = ""
    · simp [matchesAnyPattern, hd]
    · have hiff : (patterns.any fun pattern => strContains domain pattern) = true ↔
          (patterns2.any fun pattern => strContains domain pattern) = true := by
        simp only [List.any_eq_true]
        constructor
        · rintro ⟨p, hp, hc⟩
          exact ⟨p, hperm.mem_iff.mp hp, hc⟩
        · rintro ⟨p, hp, hc⟩
          exact ⟨p, hperm.mem_iff.mpr hp, hc⟩
      simp only [matchesAnyPattern, hd, if_false]
      exact Bool.eq_iff_iff.mpr hiff

/-- Witness for C5 at the spec's concrete example inputs. -/
theorem matchesAnyPattern_substring_spec_witness :
    matchesAnyPattern "cdn.vulnerable-host.io" ["vulnerable-host.io"] = true :=
  ((matchesAnyPattern_substring_spec "cdn.vulnerable-host.io"
      ["vulnerable-host.io"] ["vulnerable-host.io"]).2.1 (by decide)).mpr
    ⟨"vulnerable-host.io", by simp, "cdn.", "", by decide⟩

/-- C10.  A target whose normalized form is empty is stopped by the
matcher's empty-domain guard for every fingerprint list; the pure wildcard
marker is such a target. -/
theorem empty_normalized_never_vulnerable (target : String)
    (patterns : List String) (h : extractWildcardDomain target = "") :
    matchesAnyPattern (extractWildcardDomain target) patterns = false ∧
    extractWildcardDomain "*." = "" := by
  refine ⟨?_, by decide⟩
  rw [h]
  simp [matchesAnyPattern]

/-- Witness for C10: the pure wildcard target is not flagged even against
the empty-string fingerprint. -/
theorem empty_normalized_never_vulnerable_witness :
    matchesAnyPattern (extractWildcardDomain "*.") [""] = false :=
  (empty_normalized_never_vulnerable "*." [""] (by decide)).1

/-- Keys not occurring in the remaining worklist keep their value across the
scan loop. -/
lemma checkAux_stable (resolve : Nat → String → RawResult) (patterns : List String) :
    ∀ (l : List String) (k : Nat) (m0 m : String → Option Record) (x : String),
      checkAux resolve patterns l k m0 = Except.ok m → x ∉ l → m x = m0 x := by
  intro l
  induction l with
  | nil =>
    intro k m0 m x h hx
    simp only [checkAux, Except.ok.injEq] at h
    rw [← h]
  | cons a rest ih =>
    intro k m0 m x h hx
    simp only [checkAux] at h
    cases hg : getCNAMERecord a (resolve k a) with
    | error e => rw [hg] at h; cases h
    | ok cname =>
      rw [hg] at h
      have hx1 : x ∉ rest := fun hr => hx (List.mem_cons_of_mem _ hr)
      have hxa : x ≠ a := fun he => hx (he ▸ List.mem_cons_self a rest)
      have := ih (k + 1) _ m x h hx1
      simpa [hxa] using this

/-- If some subdomain of the worklist always fails to resolve, the scan
loop ends in an error. -/
lemma checkAux_aborts (resolve : Nat → String → RawResult) (patterns : List String) :
    ∀ (l : List String) (k : Nat) (m0 : String → Option Record),
      (∃ s ∈ l, ∀ j, (resolve j s).failed = true) →
      ∃ msg, checkAux resolve patterns l k m0 = Except.error msg := by
  intro l
  induction l with
  | nil =>
    rintro k m0 ⟨s, hs, _⟩
    simp at hs
  | cons a rest ih =>
    rintro k m0 ⟨s, hs, hf⟩
    cases hg : getCNAMERecord a (resolve k a) with
    | error e =>
      exact ⟨e, by simp [checkAux, hg]⟩
    | ok cname =>
      have hfa : (resolve k a).failed = false := by
        by_contra hc
        rw [Bool.not_eq_false] at hc
        simp [getCNAMERecord, hc] at hg
      have hsrest : s ∈ rest := by
        rcases List.mem_cons.mp hs with h1 | h1
        · subst h1
          rw [hf k] at hfa
          cases hfa
        · exact h1
      rcases ih (k + 1)
          (fun x => if x = a then
            some ⟨cname, matchesAnyPattern (extractWildcardDomain cname) patterns⟩
            else m0 x) ⟨s, hsrest, hf⟩ with ⟨msg, hmsg⟩
      refine ⟨msg, ?_⟩
      simpa [checkAux, hg] using hmsg

/-- The vulnerability flag of every record held by the scan loop's result
map is the matcher's verdict on the normalized stored CNAME. -/
lemma checkAux_invariant (resolve : Nat → String → RawResult) (patterns : List String) :
    ∀ (l : List String) (k : Nat) (m0 m : String → Option Record),
      (∀ x r, m0 x = some r →
        r.IsVulnerable = matchesAnyPattern (extractWildcardDomain r.CNAME) patterns) →
      checkAux resolve patterns l k m0 = Except.ok m →
      ∀ x r, m x = some r →
        r.IsVulnerable = matchesAnyPattern (extractWildcardDomain r.CNAME) patterns := by
  intro l
  induction l with
  | nil =>
    intro k m0 m h0 h
    simp only [checkAux, Except.ok.injEq] at h
    rw [← h]
    exact h0
  | cons a rest ih =>
    intro k m0 m h0 h
    simp only [checkAux] at h
    cases hg : getCNAMERecord a (resolve k a) with
    | error e => rw [hg] at h; cases h
    | ok cname =>
      rw [hg] at h
      refine ih (k + 1) _ m ?_ h
      intro x r hx
      by_cases hxa : x = a
      · rw [if_pos hxa] at hx
        injection hx with hx1
        rw [← hx1]
      · rw [if_neg hxa] at hx
        exact h0 x r hx

/-- Processing a worklist that carries a final occurrence of `s` stores for
`s` exactly the record computed from the query at `s`'s position. -/
lemma checkAux_last (resolve : Nat → String → RawResult) (patterns : List String)
    (s : String) (post : List String) (hs : s ∉ post) :
    ∀ (pre : List String) (k : Nat) (m0 m : String → Option Record),
      checkAux resolve patterns (pre ++ s :: post) k m0 = Except.ok m →
      ∃ c, getCNAMERecord s (resolve (k + pre.length) s) = Except.ok c ∧
        m s = some ⟨c, matchesAnyPattern (extractWildcardDomain c) patterns⟩ := by
  intro pre
  induction pre with
  | nil =>
    intro k m0 m h
    rw [List.nil_append] at h
    simp only [checkAux] at h
    cases hg : getCNAMERecord s (resolve k s) with
    | error e => rw [hg] at h; cases h
    | ok c =>
      rw [hg] at h
      refine ⟨c, by simpa using hg, ?_⟩
      have := checkAux_stable resolve patterns post (k + 1) _ m s h hs
      rw [this]
      simp
  | cons a pre2 ih =>
    intro k m0 m h
    rw [List.cons_append] at h
    simp only [checkAux] at h
    cases hg : getCNAMERecord a (resolve k a) with
    | error e => rw [hg] at h; cases h
    | ok c =>
      rw [hg] at h
      rcases ih (k + 1) _ m h with ⟨c2, hc2, hm⟩
      refine ⟨c2, ?_, hm⟩
      have heq : k + 1 + pre2.length = k + (a :: pre2).length := by
        simp [List.length_cons]
        omega
      rw [heq] at hc2
      exact hc2

/-- The scan loop is a congruence in the resolver: two resolvers answering
identically on every hostname, at any pair of query counters, drive the
loop to the same result. -/
lemma checkAux_congr (r1 r2 : Nat → String → RawResult) (patterns : List String)
    (h : ∀ j j2 host, r1 j host = r2 j2 host) :
    ∀ (l : List String) (k1 k2 : Nat) (m0 : String → Option Record),
      checkAux r1 patterns l k1 m0 = checkAux r2 patterns l k2 m0 := by
  intro l
  induction l with
  | nil => intro k1 k2 m0; rfl
  | cons a rest ih =>
    intro k1 k2 m0
    simp only [checkAux, h k1 k2 a]
    cases getCNAMERecord a (r2 k2 a) with
    | error e => rfl
    | ok cname => exact ih (k1 + 1) (k2 + 1) _

/-- C2.  If some subdomain's query always fails, the whole scan returns an
error and never a result map: all-or-nothing batch semantics. -/
theorem checkCNAMERecords_query_error_aborts (resolve : Nat → String → RawResult)
    (subdomains patterns : List String)
    (h : ∃ s ∈ subdomains, ∀ j, (resolve j s).failed = true) :
    (∃ msg, checkCNAMERecords resolve subdomains patterns = Except.error msg) ∧
    ∀ m, checkCNAMERecords resolve subdomains patterns ≠ Except.ok m := by
  rcases checkAux_aborts resolve patterns subdomains 0 (fun _ => none) h with ⟨msg, hmsg⟩
  refine ⟨⟨msg, hmsg⟩, ?_⟩
  intro m hm
  have hcontra : Except.error (ε := String) msg = Except.ok m := hmsg.symm.trans hm
  cases hcontra

/-- Resolver whose invocation always fails. -/
def failingResolve : Nat → String → RawResult := fun _ _ => ⟨"", "", true⟩

/-- Witness for C2: a one-element batch against a failing resolver aborts. -/
theorem checkCNAMERecords_query_error_aborts_witness :
    ∃ msg, checkCNAMERecords failingResolve ["a.example.com"] [] = Except.error msg :=
  (checkCNAMERecords_query_error_aborts failingResolve ["a.example.com"] []
    ⟨"a.example.com", by simp, fun _ => rfl⟩).1

/-- C6.  In any successful scan, a record's vulnerability flag is the
matcher's verdict on its normalized CNAME; in particular the no-CNAME
sentinel is never vulnerable, and a vulnerable record must hold a real
CNAME whose normalized form is non-empty and matches a fingerprint. -/
theorem scan_vulnerable_only_if_cname_match (resolve : Nat → String → RawResult)
    (subdomains patterns : List String) (m : String → Option Record)
    (hm : checkCNAMERecords resolve subdomains patterns = Except.ok m)
    (s : String) (r : Record) (hr : m s = some r) :
    r.IsVulnerable = matchesAnyPattern (extractWildcardDomain r.CNAME) patterns ∧
    (r.CNAME = "No CNAME record" → r.IsVulnerable = false) ∧
    (r.IsVulnerable = true →
      r.CNAME ≠ "No CNAME record" ∧
      extractWildcardDomain r.CNAME ≠ "" ∧
      matchesAnyPattern (extractWildcardDomain r.CNAME) patterns = true) := by
  have hsentinel : extractWildcardDomain "No CNAME record" = "" := by decide
  have hempty : matchesAnyPattern "" patterns = false := by simp [matchesAnyPattern]
  have hinv := checkAux_invariant resolve patterns subdomains 0 (fun _ => none) m
    (fun x r hx => by cases hx) hm s r hr
  refine ⟨hinv, ?_, ?_⟩
  · intro hcn
    rw [hinv, hcn, hsentinel, hempty]
  · intro hv
    have hmatch : matchesAnyPattern (extractWildcardDomain r.CNAME) patterns = true := by
      rw [← hinv, hv]
    refine ⟨?_, ?_, hmatch⟩
    · intro hcn
      rw [hcn, hsentinel, hempty] at hmatch
      cases hmatch
    · intro he
      rw [he, hempty] at hmatch
      cases hmatch

/-- Resolver answering every query with empty stdout and success. -/
def noCnameResolve : Nat → String → RawResult := fun _ _ => ⟨"", "", false⟩

/-- The result map of scanning one subdomain against `noCnameResolve`. -/
def noCnameMap : String → Option Record :=
  fun x => if x = "a.example.com" then some ⟨"No CNAME record", false⟩ else none

/-- Witness for C6: a no-CNAME record is never vulnerable. -/
theorem scan_vulnerable_only_if_cname_match_witness :
    checkCNAMERecords noCnameResolve ["a.example.com"] ["amazonaws.com"]
        = Except.ok noCnameMap ∧
    noCnameMap "a.example.com" = some ⟨"No CNAME record", false⟩ ∧
    (⟨"No CNAME record", false⟩ : Record).IsVulnerable = false := by
  refine ⟨rfl, rfl, ?_⟩
  exact (scan_vulnerable_only_if_cname_match noCnameResolve ["a.example.com"]
    ["amazonaws.com"] noCnameMap rfl "a.example.com"
    ⟨"No CNAME record", false⟩ rfl).2.1 rfl

/-- C7.  If a subdomain has its last occurrence at position `pre.length` of
the input, a successful scan maps it to the record computed from that last
occurrence's query; any record from an earlier occurrence is overwritten. -/
theorem checkCNAMERecords_last_write_wins (resolve : Nat → String → RawResult)
    (patterns pre post : List String) (s : String) (m : String → Option Record)
    (hm : checkCNAMERecords resolve (pre ++ s :: post) patterns = Except.ok m)
    (hs : s ∉ post) :
    ∃ c, getCNAMERecord s (resolve pre.length s) = Except.ok c ∧
      m s = some ⟨c, matchesAnyPattern (extractWildcardDomain c) patterns⟩ := by
  have := checkAux_last resolve patterns s post hs pre 0 (fun _ => none) m hm
  simpa using this

/-- Resolver answering the first query with one CNAME and every later query
with a different one. -/
def lastWriteResolve : Nat → String → RawResult :=
  fun k _ => if k = 0 then ⟨"old.cdn.example.net.", "", false⟩
    else ⟨"new.cdn.example.net.", "", false⟩

/-- Witness for C7: scanning the same subdomain twice keeps only the record
of the second query. -/
theorem checkCNAMERecords_last_write_wins_witness :
    ∃ m c, checkCNAMERecords lastWriteResolve ["a.example.com", "a.example.com"] []
        = Except.ok m ∧
      getCNAMERecord "a.example.com" (lastWriteResolve 1 "a.example.com")
        = Except.ok c ∧
      m "a.example.com" = some ⟨c, matchesAnyPattern (extractWildcardDomain c) []⟩ ∧
      c = "new.cdn.example.net." := by
  obtain ⟨c, hc, hmc⟩ := checkCNAMERecords_last_write_wins lastWriteResolve []
    ["a.example.com"] [] "a.example.com" _ rfl (by simp)
  refine ⟨_, c, rfl, ?_, hmc, ?_⟩
  · simpa using hc
  · have : getCNAMERecord "a.example.com" (lastWriteResolve 1 "a.example.com")
        = Except.ok "new.cdn.example.net." := rfl
    have h2 := hc.symm.trans this
    injection h2

/-- C9.  Determinism in the collaborators: two resolvers that answer every
hostname identically, regardless of query counter, yield identical result
sets on the same inputs. -/
theorem checkCNAMERecords_deterministic (r1 r2 : Nat → String → RawResult)
    (subdomains patterns : List String)
    (h : ∀ j j2 host, r1 j host = r2 j2 host) :
    checkCNAMERecords r1 subdomains patterns = checkCNAMERecords r2 subdomains patterns :=
  checkAux_congr r1 r2 patterns h subdomains 0 0 (fun _ => none)

/-- A deterministic resolver, first copy. -/
def detResolveA : Nat → String → RawResult :=
  fun _ _ => ⟨"x.s3.amazonaws.com.", "", false⟩

/-- A deterministic resolver, second copy. -/
def detResolveB : Nat → String → RawResult :=
  fun _ _ => ⟨"x.s3.amazonaws.com.", "", false⟩

/-- Witness for C9: two runs against equal deterministic resolvers agree. -/
theorem checkCNAMERecords_deterministic_witness :
    checkCNAMERecords detResolveA ["a.example.com"] ["amazonaws.com"] =
      checkCNAMERecords detResolveB ["a.example.com"] ["amazonaws.com"] :=
  checkCNAMERecords_deterministic detResolveA detResolveB
    ["a.example.com"] ["amazonaws.com"] (fun _ _ _ => rfl)

/-- C8.  The filtered report consists of exactly one `Vulnerable: Yes` line
per vulnerable record enumerated, and none for clean records; enumerating a
vulnerable and a clean record yields exactly one line. -/
theorem writeResults_only_vulnerable (m : String → Option Record)
    (keys : List String) (k1 k2 : String) (r1 r2 : Record)
    (h1 : m k1 = some r1) (h2 : m k2 = some r2)
    (hv1 : r1.IsVulnerable = true) (hv2 : r2.IsVulnerable = false) :
    (∀ line, line ∈ writeResults m keys ↔
      ∃ k ∈ keys, ∃ r, m k = some r ∧ r.IsVulnerable = true ∧
        line = reportLine k r) ∧
    writeResults m [k1, k2] = [reportLine k1 r1] := by
  constructor
  · intro line
    simp only [writeResults, List.mem_filterMap]
    constructor
    · rintro ⟨k, hk, hline⟩
      cases hmk : m k with
      | none =>
        rw [hmk] at hline
        exact Option.noConfusion hline
      | some r =>
        rw [hmk] at hline
        have hline2 : (if r.IsVulnerable = true then some (reportLine k r) else none)
            = some line := hline
        by_cases hv : r.IsVulnerable = true
        · rw [if_pos hv] at hline2
          injection hline2 with hline1
          exact ⟨k, hk, r, hmk, hv, hline1.symm⟩
        · rw [if_neg hv] at hline2
          exact Option.noConfusion hline2
    · rintro ⟨k, hk, r, hmk, hv, rfl⟩
      exact ⟨k, hk, by simp [hmk, hv]⟩
  · simp [writeResults, h1, h2, hv1, hv2]

/-- A two-record result map: one vulnerable entry, one clean entry. -/
def reportMap : String → Option Record :=
  fun x => if x = "a.example.com" then some ⟨"x.s3.amazonaws.com.", true⟩
    else if x = "b.example.com" then some ⟨"y.example.org.", false⟩ else none

/-- Witness for C8: of two scanned subdomains with one vulnerable, the
filtered report holds exactly the one line for the vulnerable record. -/
theorem writeResults_only_vulnerable_witness :
    writeResults reportMap ["a.example.com", "b.example.com"] =
      [reportLine "a.example.com" ⟨"x.s3.amazonaws.com.", true⟩] :=
  (writeResults_only_vulnerable reportMap ["a.example.com", "b.example.com"]
    "a.example.com" "b.example.com" ⟨"x.s3.amazonaws.com.", true⟩
    ⟨"y.example.org.", false⟩ rfl rfl rfl rfl).2

end DigCname
